import Mathlib

/-
Verification of the PuppyCamera core against its design spec.

Shallow embedding of the TypeScript sources:
  - src/utils/imageProcessor.ts : createPolaroidFrame (framing geometry)
  - src/App.tsx                 : component state and the handlers
      processPhotos, ejectPhoto, handleDragStart, updatePhotoScale

Numbers are modelled as rationals (JS arithmetic on the values involved is
exact for the proportions the spec talks about), ids as strings, and the
asynchronous framing step as an oracle returning an optional encoded bitmap
(some = the promise resolved, none = it rejected).
-/

set_option autoImplicit false
set_option linter.unusedVariables false

namespace PuppyCamera

/-- UploadedPhoto from src/types.ts: a pending source image. The File handle
is opaque to the core logic and is omitted. -/
structure UploadedPhoto where
  id : String
  url : String
  caption : String
  deriving Repr, DecidableEq

/-- FramedPhotoData from src/types.ts: a framed artifact, possibly already
placed on the desk. -/
structure FramedPhotoData where
  id : String
  originalUrl : String
  framedUrl : String
  x : ℚ
  y : ℚ
  rotation : ℚ
  zIndex : ℤ
  scale : ℚ
  deriving Repr, DecidableEq

/-- Geometry computed by createPolaroidFrame (src/utils/imageProcessor.ts,
lines 28-63): canvas size, padding, photo region, source crop rectangle and
destination rectangle of the drawImage call. Pixel painting and PNG encoding
are host-environment effects outside the embedding. -/
structure FrameGeometry where
  frameWidth : ℚ
  frameHeight : ℚ
  padding : ℚ
  photoWidth : ℚ
  photoHeight : ℚ
  sx : ℚ
  sy : ℚ
  sWidth : ℚ
  sHeight : ℚ
  destX : ℚ
  destY : ℚ
  destW : ℚ
  destH : ℚ
  deriving Repr, DecidableEq

/-- createPolaroidFrame from src/utils/imageProcessor.ts, geometry part.
Mirrors the source line by line: frameWidth = width, frameHeight =
width * 1.25, padding = width * 0.08, photoWidth = frameWidth - padding * 2,
photoHeight = photoWidth; then the centre crop: sx = sy = 0, sWidth =
img.width, sHeight = img.height initially; if sourceAspect = img.width /
img.height > 1 then sWidth := img.height and sx := (img.width - img.height)/2,
else sHeight := img.width and sy := (img.height - img.width)/2. The drawImage
destination is (padding, padding, photoWidth, photoHeight). -/
def createPolaroidFrame (imgWidth imgHeight width : ℚ) : FrameGeometry :=
  let frameWidth := width
  let frameHeight := width * (5 / 4)
  let padding := width * (2 / 25)
  let photoWidth := frameWidth - padding * 2
  let photoHeight := photoWidth
  let sourceAspect := imgWidth / imgHeight
  if sourceAspect > 1 then
    { frameWidth := frameWidth, frameHeight := frameHeight, padding := padding
      photoWidth := photoWidth, photoHeight := photoHeight
      sx := (imgWidth - imgHeight) / 2, sy := 0
      sWidth := imgHeight, sHeight := imgHeight
      destX := padding, destY := padding, destW := photoWidth, destH := photoHeight }
  else
    { frameWidth := frameWidth, frameHeight := frameHeight, padding := padding
      photoWidth := photoWidth, photoHeight := photoHeight
      sx := 0, sy := (imgHeight - imgWidth) / 2
      sWidth := imgWidth, sHeight := imgWidth
      destX := padding, destY := padding, destW := photoWidth, destH := photoHeight }

/-! Component state of src/App.tsx and the handlers operating on it. -/

/-- Mutable state of the App component (src/App.tsx, lines 47-59): the three
collections, the processing flag, the progress value and the highestZIndex
ref (initialised to 10). Presentational state (themes, camera stream, flash)
is outside the core and omitted. -/
structure AppState where
  uploads : List UploadedPhoto
  processingQueue : List FramedPhotoData
  dispensedPhotos : List FramedPhotoData
  isProcessing : Bool
  progress : ℚ
  highestZIndex : ℤ
  deriving Repr, DecidableEq

/-- Draws of Math.random consumed by one ejectPhoto call, each in [0, 1). -/
structure Rand where
  rx : ℚ
  ry : ℚ
  rr : ℚ
  deriving Repr, DecidableEq

/-- Result of one attempted framing: the createPolaroidFrame promise either
resolves with an encoded bitmap (some) or rejects (none). The oracle stands
for the asynchronous decode-and-draw step of src/utils/imageProcessor.ts. -/
def FrameOracle : Type := UploadedPhoto → Option String

/-- Loop body of processPhotos (src/App.tsx, lines 172-183): on success build
the FramedPhotoData with x = y = rotation = 0, zIndex = 0, scale = 1; on
failure the item yields nothing. -/
def processUpload (fr : FrameOracle) (photo : UploadedPhoto) : Option FramedPhotoData :=
  (fr photo).map (fun framedBase64 =>
    { id := photo.id, originalUrl := photo.url, framedUrl := framedBase64
      x := 0, y := 0, rotation := 0, zIndex := 0, scale := 1 })

/-- Progress value written by setProgress after the item at position i of a
batch of total items (src/App.tsx, line 185): ((i + 1) / total) * 100. -/
def progressAfter (total : ℕ) (i : ℕ) : ℚ :=
  (((i : ℚ) + 1) / (total : ℚ)) * 100

/-- The for-loop of processPhotos (src/App.tsx, lines 170-187), started at
item index i over the remaining photos: returns the artifacts pushed onto
newQueue and the successive progress values reported by setProgress, one per
processed item whether or not its framing succeeded. -/
def processLoop (fr : FrameOracle) (total : ℕ) :
    ℕ → List UploadedPhoto → List FramedPhotoData × List ℚ
  | _, [] => ([], [])
  | i, photo :: rest =>
    let res := processLoop fr total (i + 1) rest
    match processUpload fr photo with
    | some fp => (fp :: res.1, progressAfter total i :: res.2)
    | none => (res.1, progressAfter total i :: res.2)

/-- Number of items of the batch whose framing succeeded: the completed count
in the sense of the spec sentence about fractional progress. -/
def completedCount (fr : FrameOracle) (photos : List UploadedPhoto) : ℕ :=
  (photos.filterMap (processUpload fr)).length

/-- processPhotos from src/App.tsx (lines 155-193), end to end with no other
operation interleaved: guard (uploads empty or already processing => plain
return), then the loop over the snapshot of uploads, then the closing writes
setProcessingQueue(prev ++ newQueue), setUploads([]), setIsProcessing(false),
setProgress(0). -/
def processPhotos (fr : FrameOracle) (s : AppState) : AppState :=
  if s.uploads.length = 0 ∨ s.isProcessing = true then s
  else
    { s with
      processingQueue := s.processingQueue ++ (processLoop fr s.uploads.length 0 s.uploads).1
      uploads := []
      isProcessing := false
      progress := 0 }

/-- Uploads appended to the pending collection by handleFileUpload or
snapPhoto (src/App.tsx, lines 71 and 112): setUploads(prev => [...prev, ...]). -/
def addPending (ps : List UploadedPhoto) (s : AppState) : AppState :=
  { s with uploads := s.uploads ++ ps }

/-- Closing writes of a processPhotos run (src/App.tsx, lines 189-192) that
framed the given snapshot of the pending collection: the functional update
appends the new artifacts to whatever the queue holds at completion time, and
setUploads([]) replaces the whole pending collection by the empty one. -/
def developFinish (fr : FrameOracle) (snapshot : List UploadedPhoto) (s : AppState) : AppState :=
  { s with
    processingQueue := s.processingQueue ++ (processLoop fr snapshot.length 0 snapshot).1
    uploads := []
    isProcessing := false
    progress := 0 }

/-- A processPhotos run during which further sources are appended to the
pending collection at one of the await points of the loop. The loop iterates
over the closure variable uploads, i.e. over the snapshot taken when the run
started; the additions only land in the component state and are then
overwritten by the unconditional setUploads([]) at completion. -/
def developWithMidRunAdds (fr : FrameOracle) (added : List UploadedPhoto) (s : AppState) :
    AppState :=
  if s.uploads.length = 0 ∨ s.isProcessing = true then addPending added s
  else developFinish fr s.uploads (addPending added { s with isProcessing := true, progress := 0 })

/-- Scatter-and-place step of ejectPhoto (src/App.tsx, lines 201-218): the
dispensed photo keeps the artifact data and receives a random position with
padding 50 against an assumed 150 x 200 footprint, a random rotation in
[-20, 20), the current highestZIndex, and scale 1. -/
def placePhoto (r : Rand) (deskWidth deskHeight : ℚ) (z : ℤ) (p : FramedPhotoData) :
    FramedPhotoData :=
  { p with
    x := r.rx * (deskWidth - 150 - 50 * 2) + 50
    y := r.ry * (deskHeight - 200 - 50 * 2) + 50
    rotation := r.rr * 40 - 20
    zIndex := z
    scale := 1 }

/-- ejectPhoto from src/App.tsx (lines 195-221): no-op on an empty queue;
otherwise pop the head of processingQueue, place it with zIndex =
highestZIndex.current++ (read, then increment), and append it to
dispensedPhotos. -/
def ejectPhoto (r : Rand) (deskWidth deskHeight : ℚ) (s : AppState) : AppState :=
  match s.processingQueue with
  | [] => s
  | next :: remainingQueue =>
    { s with
      processingQueue := remainingQueue
      dispensedPhotos :=
        s.dispensedPhotos ++ [placePhoto r deskWidth deskHeight s.highestZIndex next]
      highestZIndex := s.highestZIndex + 1 }

/-- Repeated ejectPhoto calls, one per supplied random draw, left to right. -/
def ejectAll (rs : List Rand) (deskWidth deskHeight : ℚ) (s : AppState) : AppState :=
  rs.foldl (fun st r => ejectPhoto r deskWidth deskHeight st) s

/-- handleDragStart from src/App.tsx (lines 244-252): increment
highestZIndex.current first, then assign the new value to the dragged photo.
The counter is bumped whether or not any photo matches the id. -/
def handleDragStart (id : String) (s : AppState) : AppState :=
  { s with
    highestZIndex := s.highestZIndex + 1
    dispensedPhotos := s.dispensedPhotos.map (fun p =>
      if p.id = id then { p with zIndex := s.highestZIndex + 1 } else p) }

/-- Scale computation of updatePhotoScale (src/App.tsx, line 148):
Math.max(0.5, Math.min(2.5, (p.scale || 1) + delta)); the JS falsy-default
(p.scale || 1) yields 1 exactly when the stored scale is 0. -/
def clampScale (current delta : ℚ) : ℚ :=
  max (1 / 2) (min (5 / 2) ((if current = 0 then 1 else current) + delta))

/-- updatePhotoScale from src/App.tsx (lines 145-153): map over
dispensedPhotos, replacing the scale of every photo with the given id. -/
def updatePhotoScale (id : String) (delta : ℚ) (s : AppState) : AppState :=
  { s with
    dispensedPhotos := s.dispensedPhotos.map (fun p =>
      if p.id = id then { p with scale := clampScale p.scale delta } else p) }

/-! Stacking-index traces: the two operations that issue a z-order index. -/

/-- Tag recording which source operation issued a stacking index:
place = ejectPhoto (spec name place), bringToFront = handleDragStart. -/
inductive ZOp where
  | place
  | bringToFront
  deriving Repr, DecidableEq

/-- An operation on the desk surface that touches the stacking counter. -/
inductive SurfaceOp where
  | eject (r : Rand) (deskWidth deskHeight : ℚ)
  | dragStart (id : String)
  deriving DecidableEq

/-- Effect of a surface operation on the component state. -/
def applyOp : SurfaceOp → AppState → AppState
  | SurfaceOp.eject r w h, s => ejectPhoto r w h s
  | SurfaceOp.dragStart id, s => handleDragStart id s

/-- Stacking index issued by one operation in the given state, tagged with
the kind of operation. ejectPhoto issues highestZIndex.current and then
increments (line 216); it issues nothing when the queue is empty (line 196).
handleDragStart increments first and issues the incremented value
(lines 245-248). -/
def issuedBy : SurfaceOp → AppState → List (ZOp × ℤ)
  | SurfaceOp.eject _ _ _, s =>
    match s.processingQueue with
    | [] => []
    | _ :: _ => [(ZOp.place, s.highestZIndex)]
  | SurfaceOp.dragStart _, s => [(ZOp.bringToFront, s.highestZIndex + 1)]

/-- All stacking indices issued along a sequence of surface operations, in
order of issue. -/
def issuedTrace : List SurfaceOp → AppState → List (ZOp × ℤ)
  | [], _ => []
  | op :: ops, s => issuedBy op s ++ issuedTrace ops (applyOp op s)

/-- Ordering that actually holds between two successive issued indices: never
decreasing, and strictly increasing unless a place reuses the index of an
earlier bringToFront. -/
def zOrderOk (a b : ZOp × ℤ) : Prop :=
  a.2 ≤ b.2 ∧ ((b.1 = ZOp.bringToFront ∨ a.1 = ZOp.place) → a.2 < b.2)

/-! Concrete sample data used by closed witnesses and counterexamples. -/

/-- Sample placed photo with id a. -/
def photoA : FramedPhotoData :=
  { id := "a", originalUrl := "", framedUrl := "", x := 0, y := 0
    rotation := 0, zIndex := 10, scale := 1 }

/-- Sample queued artifact with id b. -/
def queuedB : FramedPhotoData :=
  { id := "b", originalUrl := "", framedUrl := "", x := 0, y := 0
    rotation := 0, zIndex := 0, scale := 1 }

/-- Sample random draws, all one half. -/
def randHalf : Rand := { rx := 1 / 2, ry := 1 / 2, rr := 1 / 2 }

/-- Sample state: photo a on the desk, artifact b queued, counter at 10. -/
def stateAB : AppState :=
  { uploads := [], processingQueue := [queuedB], dispensedPhotos := [photoA]
    isProcessing := false, progress := 0, highestZIndex := 10 }

/-- Sample pending upload whose framing will fail. -/
def uploadBad : UploadedPhoto := { id := "bad", url := "u1", caption := "" }

/-- Sample pending upload whose framing will succeed. -/
def uploadGood : UploadedPhoto := { id := "good", url := "u2", caption := "c" }

/-- Sample oracle: framing rejects exactly on the upload with id bad. -/
def oracleSkipBad : FrameOracle :=
  fun p => if p.id = "bad" then none else some "data"

/-- Sample state with the two pending uploads and nothing else. -/
def statePending : AppState :=
  { uploads := [uploadBad, uploadGood], processingQueue := [], dispensedPhotos := []
    isProcessing := false, progress := 0, highestZIndex := 10 }

/-- Sample upload arriving while a develop run is in flight. -/
def uploadLate : UploadedPhoto := { id := "late", url := "u3", caption := "" }

/-- Sample state with empty pending collection. -/
def stateEmpty : AppState :=
  { uploads := [], processingQueue := [], dispensedPhotos := []
    isProcessing := false, progress := 0, highestZIndex := 10 }

/-- Sample state with a develop run already in flight. -/
def stateBusy : AppState :=
  { uploads := [uploadGood], processingQueue := [], dispensedPhotos := []
    isProcessing := true, progress := 50, highestZIndex := 10 }

end PuppyCamera

namespace PuppyCamera

/-! Theorems. -/

/-- Branch equation for createPolaroidFrame on a wide (landscape) source. -/
theorem createPolaroidFrame_wide_eq (imgWidth imgHeight width : ℚ)
    (h : imgWidth / imgHeight > 1) :
    createPolaroidFrame imgWidth imgHeight width =
      { frameWidth := width, frameHeight := width * (5 / 4)
        padding := width * (2 / 25)
        photoWidth := width - width * (2 / 25) * 2
        photoHeight := width - width * (2 / 25) * 2
        sx := (imgWidth - imgHeight) / 2, sy := 0
        sWidth := imgHeight, sHeight := imgHeight
        destX := width * (2 / 25), destY := width * (2 / 25)
        destW := width - width * (2 / 25) * 2
        destH := width - width * (2 / 25) * 2 } := by
  simp only [createPolaroidFrame]
  rw [if_pos h]

/-- Branch equation for createPolaroidFrame on a tall or square source. -/
theorem createPolaroidFrame_tall_eq (imgWidth imgHeight width : ℚ)
    (h : ¬ imgWidth / imgHeight > 1) :
    createPolaroidFrame imgWidth imgHeight width =
      { frameWidth := width, frameHeight := width * (5 / 4)
        padding := width * (2 / 25)
        photoWidth := width - width * (2 / 25) * 2
        photoHeight := width - width * (2 / 25) * 2
        sx := 0, sy := (imgHeight - imgWidth) / 2
        sWidth := imgWidth, sHeight := imgWidth
        destX := width * (2 / 25), destY := width * (2 / 25)
        destW := width - width * (2 / 25) * 2
        destH := width - width * (2 / 25) * 2 } := by
  simp only [createPolaroidFrame]
  rw [if_neg h]

/-- C5: for every targetWidth > 0, the framed canvas has width targetWidth and
height targetWidth * 1.25, the padding is targetWidth * 0.08, the photo region
is a square of side targetWidth - 2 * padding positioned at (padding, padding),
and the margins left, top and right of the photo region all equal the padding. -/
theorem createPolaroidFrame_dimensions (imgWidth imgHeight width : ℚ)
    (hw : 0 < width) :
    (createPolaroidFrame imgWidth imgHeight width).frameWidth = width ∧
    (createPolaroidFrame imgWidth imgHeight width).frameHeight = width * (5 / 4) ∧
    (createPolaroidFrame imgWidth imgHeight width).padding = width * (2 / 25) ∧
    (createPolaroidFrame imgWidth imgHeight width).photoWidth
      = width - 2 * (createPolaroidFrame imgWidth imgHeight width).padding ∧
    (createPolaroidFrame imgWidth imgHeight width).photoHeight
      = (createPolaroidFrame imgWidth imgHeight width).photoWidth ∧
    (createPolaroidFrame imgWidth imgHeight width).destX
      = (createPolaroidFrame imgWidth imgHeight width).padding ∧
    (createPolaroidFrame imgWidth imgHeight width).destY
      = (createPolaroidFrame imgWidth imgHeight width).padding ∧
    (createPolaroidFrame imgWidth imgHeight width).destW
      = (createPolaroidFrame imgWidth imgHeight width).photoWidth ∧
    (createPolaroidFrame imgWidth imgHeight width).destH
      = (createPolaroidFrame imgWidth imgHeight width).photoHeight ∧
    (createPolaroidFrame imgWidth imgHeight width).frameWidth
        - ((createPolaroidFrame imgWidth imgHeight width).destX
            + (createPolaroidFrame imgWidth imgHeight width).destW)
      = (createPolaroidFrame imgWidth imgHeight width).padding := by
  by_cases hA : imgWidth / imgHeight > 1
  · rw [createPolaroidFrame_wide_eq imgWidth imgHeight width hA]
    refine ⟨rfl, rfl, rfl, by ring, rfl, rfl, rfl, rfl, rfl, by ring⟩
  · rw [createPolaroidFrame_tall_eq imgWidth imgHeight width hA]
    refine ⟨rfl, rfl, rfl, by ring, rfl, rfl, rfl, rfl, rfl, by ring⟩

/-- Witness for createPolaroidFrame_dimensions at a concrete width. -/
theorem createPolaroidFrame_dimensions_witness :
    (0 : ℚ) < 600 ∧
    (createPolaroidFrame 800 400 600).frameWidth = 600 ∧
    (createPolaroidFrame 800 400 600).frameHeight = 600 * (5 / 4) := by
  have h := createPolaroidFrame_dimensions 800 400 600 (by norm_num)
  exact ⟨by norm_num, h.1, h.2.1⟩

/-- C4: for positive source dimensions, the crop is a centred square. If
imgWidth > imgHeight the square has side imgHeight with sy = 0 and
sx = (imgWidth - imgHeight)/2, the left and right trims being equal;
otherwise the square has side imgWidth with sx = 0 and
sy = (imgHeight - imgWidth)/2, the top and bottom trims being equal. In both
cases the drawImage destination rectangle is exactly the photo region, which
is itself a square, so the crop fills it with no letterboxing. -/
theorem createPolaroidFrame_centre_crop (imgWidth imgHeight width : ℚ)
    (hW : 0 < imgWidth) (hH : 0 < imgHeight) :
    (imgWidth > imgHeight →
      (createPolaroidFrame imgWidth imgHeight width).sWidth = imgHeight ∧
      (createPolaroidFrame imgWidth imgHeight width).sHeight = imgHeight ∧
      (createPolaroidFrame imgWidth imgHeight width).sx = (imgWidth - imgHeight) / 2 ∧
      (createPolaroidFrame imgWidth imgHeight width).sy = 0 ∧
      imgWidth - ((createPolaroidFrame imgWidth imgHeight width).sx
          + (createPolaroidFrame imgWidth imgHeight width).sWidth)
        = (createPolaroidFrame imgWidth imgHeight width).sx) ∧
    (imgHeight ≥ imgWidth →
      (createPolaroidFrame imgWidth imgHeight width).sWidth = imgWidth ∧
      (createPolaroidFrame imgWidth imgHeight width).sHeight = imgWidth ∧
      (createPolaroidFrame imgWidth imgHeight width).sx = 0 ∧
      (createPolaroidFrame imgWidth imgHeight width).sy = (imgHeight - imgWidth) / 2 ∧
      imgHeight - ((createPolaroidFrame imgWidth imgHeight width).sy
          + (createPolaroidFrame imgWidth imgHeight width).sHeight)
        = (createPolaroidFrame imgWidth imgHeight width).sy) ∧
    (createPolaroidFrame imgWidth imgHeight width).destX
      = (createPolaroidFrame imgWidth imgHeight width).padding ∧
    (createPolaroidFrame imgWidth imgHeight width).destY
      = (createPolaroidFrame imgWidth imgHeight width).padding ∧
    (createPolaroidFrame imgWidth imgHeight width).destW
      = (createPolaroidFrame imgWidth imgHeight width).photoWidth ∧
    (createPolaroidFrame imgWidth imgHeight width).destH
      = (createPolaroidFrame imgWidth imgHeight width).photoHeight ∧
    (createPolaroidFrame imgWidth imgHeight width).destW
      = (createPolaroidFrame imgWidth imgHeight width).destH := by
  have hAspect : imgWidth / imgHeight > 1 ↔ imgWidth > imgHeight := by
    rw [gt_iff_lt, lt_div_iff₀ hH, one_mul]
  by_cases hgt : imgWidth > imgHeight
  · rw [createPolaroidFrame_wide_eq imgWidth imgHeight width (hAspect.mpr hgt)]
    refine ⟨fun _ => ⟨rfl, rfl, rfl, rfl, by ring⟩,
      fun hle => absurd hgt (not_lt.mpr hle), rfl, rfl, rfl, rfl, rfl⟩
  · rw [createPolaroidFrame_tall_eq imgWidth imgHeight width (fun h => hgt (hAspect.mp h))]
    refine ⟨fun h => absurd h hgt, fun _ => ⟨rfl, rfl, rfl, rfl, by ring⟩,
      rfl, rfl, rfl, rfl, rfl⟩

/-- Branch equation: ejectPhoto on an empty queue is the identity. -/
theorem ejectPhoto_nil_eq (r : Rand) (w h : ℚ) (s : AppState)
    (hq : s.processingQueue = []) : ejectPhoto r w h s = s := by
  unfold ejectPhoto
  rw [hq]

/-- Branch equation: ejectPhoto on a non-empty queue pops the head, places it
with the current counter value and increments the counter. -/
theorem ejectPhoto_cons_eq (r : Rand) (w h : ℚ) (s : AppState) (next : FramedPhotoData)
    (rest : List FramedPhotoData) (hq : s.processingQueue = next :: rest) :
    ejectPhoto r w h s =
      { s with
        processingQueue := rest
        dispensedPhotos := s.dispensedPhotos ++ [placePhoto r w h s.highestZIndex next]
        highestZIndex := s.highestZIndex + 1 } := by
  unfold ejectPhoto
  rw [hq]

/-- Branch equation: an eject issues nothing when the queue is empty. -/
theorem issuedBy_eject_nil (r : Rand) (w h : ℚ) (s : AppState)
    (hq : s.processingQueue = []) : issuedBy (SurfaceOp.eject r w h) s = [] := by
  simp only [issuedBy, hq]

/-- Branch equation: an eject on a non-empty queue issues the current counter
value tagged as a place. -/
theorem issuedBy_eject_cons (r : Rand) (w h : ℚ) (s : AppState) (next : FramedPhotoData)
    (rest : List FramedPhotoData) (hq : s.processingQueue = next :: rest) :
    issuedBy (SurfaceOp.eject r w h) s = [(ZOp.place, s.highestZIndex)] := by
  simp only [issuedBy, hq]

/-- Branch equation: a dragStart issues the incremented counter value. -/
theorem issuedBy_dragStart (id : String) (s : AppState) :
    issuedBy (SurfaceOp.dragStart id) s = [(ZOp.bringToFront, s.highestZIndex + 1)] := rfl

/-- The stacking counter never decreases under a surface operation. -/
theorem applyOp_highestZIndex_mono (op : SurfaceOp) (s : AppState) :
    s.highestZIndex ≤ (applyOp op s).highestZIndex := by
  cases op with
  | eject r w h =>
    cases hq : s.processingQueue with
    | nil =>
      rw [applyOp, ejectPhoto_nil_eq r w h s hq]
    | cons a t =>
      rw [applyOp, ejectPhoto_cons_eq r w h s a t hq]
      exact le_of_lt (lt_add_one _)
  | dragStart id => exact le_of_lt (lt_add_one _)

/-- Every index issued after starting in state s is at least the counter of s,
and strictly above it when issued by a bringToFront. -/
theorem issuedTrace_lower (ops : List SurfaceOp) :
    ∀ (s : AppState), ∀ p ∈ issuedTrace ops s,
      s.highestZIndex ≤ p.2 ∧ (p.1 = ZOp.bringToFront → s.highestZIndex < p.2) := by
  induction ops with
  | nil => intro s p hp; simp [issuedTrace] at hp
  | cons op ops ih =>
    intro s p hp
    rw [issuedTrace] at hp
    rcases List.mem_append.mp hp with h1 | h2
    · cases op with
      | eject r w h =>
        cases hq : s.processingQueue with
        | nil => rw [issuedBy_eject_nil r w h s hq] at h1; simp at h1
        | cons a t =>
          rw [issuedBy_eject_cons r w h s a t hq] at h1
          simp only [List.mem_singleton] at h1
          subst h1
          exact ⟨le_refl _, fun hc => ZOp.noConfusion hc⟩
      | dragStart id =>
        rw [issuedBy_dragStart] at h1
        simp only [List.mem_singleton] at h1
        subst h1
        exact ⟨le_of_lt (lt_add_one _), fun _ => lt_add_one _⟩
    · have hb := ih (applyOp op s) p h2
      have hmono := applyOp_highestZIndex_mono op s
      exact ⟨le_trans hmono hb.1, fun ht => lt_of_le_of_lt hmono (hb.2 ht)⟩

/-- C1 (amended): along every sequence of place (ejectPhoto) and bringToFront
(handleDragStart) operations, each issued stacking index is greater than or
equal to every previously issued index, and strictly greater whenever the
issuing operation is a bringToFront or the earlier index was issued by a
place; a tie can occur only when a place follows an earlier bringToFront,
because ejectPhoto reads the counter before incrementing it while
handleDragStart increments before reading. -/
theorem stacking_indices_monotone (ops : List SurfaceOp) (s : AppState) :
    List.Pairwise zOrderOk (issuedTrace ops s) := by
  induction ops generalizing s with
  | nil => rw [issuedTrace]; exact List.Pairwise.nil
  | cons op ops ih =>
    rw [issuedTrace, List.pairwise_append]
    refine ⟨?_, ih (applyOp op s), ?_⟩
    · cases op with
      | eject r w h =>
        cases hq : s.processingQueue with
        | nil =>
          rw [issuedBy_eject_nil r w h s hq]
          exact List.Pairwise.nil
        | cons a t =>
          rw [issuedBy_eject_cons r w h s a t hq]
          exact List.pairwise_singleton _ _
      | dragStart id =>
        rw [issuedBy_dragStart]
        exact List.pairwise_singleton _ _
    · intro a ha b hb
      have hb2 := issuedTrace_lower ops (applyOp op s) b hb
      cases op with
      | eject r w h =>
        cases hq : s.processingQueue with
        | nil => rw [issuedBy_eject_nil r w h s hq] at ha; simp at ha
        | cons x t =>
          rw [issuedBy_eject_cons r w h s x t hq] at ha
          simp only [List.mem_singleton] at ha
          subst ha
          have hcounter : (applyOp (SurfaceOp.eject r w h) s).highestZIndex
              = s.highestZIndex + 1 := by
            rw [applyOp, ejectPhoto_cons_eq r w h s x t hq]
          have hstrict : s.highestZIndex < b.2 := by
            have := hb2.1
            rw [hcounter] at this
            exact lt_of_lt_of_le (lt_add_one _) this
          exact ⟨le_of_lt hstrict, fun _ => hstrict⟩
      | dragStart id =>
        rw [issuedBy_dragStart] at ha
        simp only [List.mem_singleton] at ha
        subst ha
        have hcounter : (applyOp (SurfaceOp.dragStart id) s).highestZIndex
            = s.highestZIndex + 1 := rfl
        have hle : s.highestZIndex + 1 ≤ b.2 := by
          have := hb2.1
          rwa [hcounter] at this
        refine ⟨hle, fun hdisj => ?_⟩
        rcases hdisj with hbf | hpl
        · have := hb2.2 hbf
          rwa [hcounter] at this
        · exact ZOp.noConfusion hpl

/-- C1 (counterexample): starting from a state with counter 10, one photo on
the desk and one queued artifact, the sequence bringToFront then place issues
the indices 11 and 11 — the place's index is not strictly greater than the
previously issued one, so the claimed strict increase fails. -/
theorem stacking_strict_counterexample :
    issuedTrace [SurfaceOp.dragStart "a", SurfaceOp.eject randHalf 300 400] stateAB
      = [(ZOp.bringToFront, 11), (ZOp.place, 11)] ∧
    ¬ List.Pairwise (fun a b : ZOp × ℤ => a.2 < b.2)
        (issuedTrace [SurfaceOp.dragStart "a", SurfaceOp.eject randHalf 300 400] stateAB) := by
  constructor
  · rfl
  · intro hpw
    rw [show issuedTrace [SurfaceOp.dragStart "a", SurfaceOp.eject randHalf 300 400] stateAB
        = [(ZOp.bringToFront, 11), (ZOp.place, 11)] from rfl] at hpw
    rcases hpw with _ | ⟨hrel, _⟩
    exact absurd (hrel _ (List.mem_singleton.mpr rfl)) (by norm_num)

/-- placePhoto keeps the artifact id of the queued item. -/
theorem placePhoto_id (r : Rand) (w h : ℚ) (z : ℤ) (p : FramedPhotoData) :
    (placePhoto r w h z p).id = p.id := rfl

/-- Helper for C7: draining as many ejects as the queue holds empties the
queue and appends the queued artifacts to the placed list in queue order. -/
theorem ejectAll_drain (w h : ℚ) (rs : List Rand) :
    ∀ (s : AppState), rs.length = s.processingQueue.length →
    (ejectAll rs w h s).processingQueue = [] ∧
    (ejectAll rs w h s).dispensedPhotos.map FramedPhotoData.id
      = s.dispensedPhotos.map FramedPhotoData.id
        ++ s.processingQueue.map FramedPhotoData.id := by
  induction rs with
  | nil =>
    intro s hlen
    have hq : s.processingQueue = [] := List.length_eq_zero.mp hlen.symm
    rw [show ejectAll [] w h s = s from rfl, hq]
    exact ⟨rfl, by simp⟩
  | cons r rs ih =>
    intro s hlen
    cases hq : s.processingQueue with
    | nil => rw [hq] at hlen; simp at hlen
    | cons next rest =>
      have hstep : ejectAll (r :: rs) w h s = ejectAll rs w h (ejectPhoto r w h s) := rfl
      rw [hstep, ejectPhoto_cons_eq r w h s next rest hq]
      have hlen2 : rs.length
          = ({ s with
                processingQueue := rest
                dispensedPhotos :=
                  s.dispensedPhotos ++ [placePhoto r w h s.highestZIndex next]
                highestZIndex := s.highestZIndex + 1 } : AppState).processingQueue.length := by
        rw [hq] at hlen
        simpa using hlen
      have hres := ih _ hlen2
      refine ⟨hres.1, ?_⟩
      rw [hres.2]
      simp [hq, placePhoto_id]

/-- C7: release is strict FIFO. On an empty queue ejectPhoto leaves the state
unchanged; on a non-empty queue it removes exactly the head and appends the
placed item to the dispensed collection; and draining a queue of N artifacts
with N ejects places them in their original enqueue order. -/
theorem ejectPhoto_strict_fifo (w h : ℚ) :
    (∀ (r : Rand) (s : AppState), s.processingQueue = [] → ejectPhoto r w h s = s) ∧
    (∀ (r : Rand) (s : AppState) (next : FramedPhotoData) (rest : List FramedPhotoData),
      s.processingQueue = next :: rest →
      (ejectPhoto r w h s).processingQueue = rest ∧
      (ejectPhoto r w h s).dispensedPhotos
        = s.dispensedPhotos ++ [placePhoto r w h s.highestZIndex next]) ∧
    (∀ (rs : List Rand) (s : AppState), rs.length = s.processingQueue.length →
      (ejectAll rs w h s).processingQueue = [] ∧
      (ejectAll rs w h s).dispensedPhotos.map FramedPhotoData.id
        = s.dispensedPhotos.map FramedPhotoData.id
          ++ s.processingQueue.map FramedPhotoData.id) := by
  refine ⟨fun r s hq => ejectPhoto_nil_eq r w h s hq, fun r s next rest hq => ?_,
    fun rs s hlen => ejectAll_drain w h rs s hlen⟩
  rw [ejectPhoto_cons_eq r w h s next rest hq]
  exact ⟨rfl, rfl⟩

/-- Witness for ejectPhoto_strict_fifo: a one-element queue drains onto the
desk behind the existing photo, and ejecting with an empty queue is a no-op. -/
theorem ejectPhoto_strict_fifo_witness :
    (ejectAll [randHalf] 300 400 stateAB).processingQueue = [] ∧
    (ejectAll [randHalf] 300 400 stateAB).dispensedPhotos.map FramedPhotoData.id
      = stateAB.dispensedPhotos.map FramedPhotoData.id
        ++ stateAB.processingQueue.map FramedPhotoData.id ∧
    ejectPhoto randHalf 300 400 stateEmpty = stateEmpty := by
  have H := ejectPhoto_strict_fifo 300 400
  have hdrain := H.2.2 [randHalf] stateAB rfl
  exact ⟨hdrain.1, hdrain.2, H.1 randHalf stateEmpty rfl⟩

/-- C9: a placed item keeps a 50-unit margin from every edge of a surface of
width at least 250 and height at least 300, for the assumed 150 x 200
footprint, and its rotation lies within [-20, 20] degrees, for any random
draws in [0, 1). -/
theorem placePhoto_bounds (r : Rand) (w h : ℚ) (z : ℤ) (p : FramedPhotoData)
    (hw : 250 ≤ w) (hh : 300 ≤ h)
    (hrx0 : 0 ≤ r.rx) (hrx1 : r.rx < 1) (hry0 : 0 ≤ r.ry) (hry1 : r.ry < 1)
    (hrr0 : 0 ≤ r.rr) (hrr1 : r.rr < 1) :
    50 ≤ (placePhoto r w h z p).x ∧ (placePhoto r w h z p).x + 150 ≤ w - 50 ∧
    50 ≤ (placePhoto r w h z p).y ∧ (placePhoto r w h z p).y + 200 ≤ h - 50 ∧
    -20 ≤ (placePhoto r w h z p).rotation ∧ (placePhoto r w h z p).rotation ≤ 20 := by
  have hxnn : (0 : ℚ) ≤ w - 150 - 50 * 2 := by linarith
  have hynn : (0 : ℚ) ≤ h - 200 - 50 * 2 := by linarith
  have hx0 : 0 ≤ r.rx * (w - 150 - 50 * 2) := mul_nonneg hrx0 hxnn
  have hx1 : r.rx * (w - 150 - 50 * 2) ≤ w - 150 - 50 * 2 :=
    mul_le_of_le_one_left hxnn (le_of_lt hrx1)
  have hy0 : 0 ≤ r.ry * (h - 200 - 50 * 2) := mul_nonneg hry0 hynn
  have hy1 : r.ry * (h - 200 - 50 * 2) ≤ h - 200 - 50 * 2 :=
    mul_le_of_le_one_left hynn (le_of_lt hry1)
  have hr0 : 0 ≤ r.rr * 40 := mul_nonneg hrr0 (by norm_num)
  have hr1 : r.rr * 40 ≤ 40 := mul_le_of_le_one_left (by norm_num) (le_of_lt hrr1)
  refine ⟨?_, ?_, ?_, ?_, ?_, ?_⟩
  · show 50 ≤ r.rx * (w - 150 - 50 * 2) + 50
    linarith
  · show r.rx * (w - 150 - 50 * 2) + 50 + 150 ≤ w - 50
    linarith
  · show 50 ≤ r.ry * (h - 200 - 50 * 2) + 50
    linarith
  · show r.ry * (h - 200 - 50 * 2) + 50 + 200 ≤ h - 50
    linarith
  · show -20 ≤ r.rr * 40 - 20
    linarith
  · show r.rr * 40 - 20 ≤ 20
    linarith

/-- Witness for placePhoto_bounds on a 300 x 400 desk with draws of one half. -/
theorem placePhoto_bounds_witness :
    50 ≤ (placePhoto randHalf 300 400 10 queuedB).x ∧
    (placePhoto randHalf 300 400 10 queuedB).x + 150 ≤ 300 - 50 ∧
    50 ≤ (placePhoto randHalf 300 400 10 queuedB).y ∧
    (placePhoto randHalf 300 400 10 queuedB).y + 200 ≤ 400 - 50 ∧
    -20 ≤ (placePhoto randHalf 300 400 10 queuedB).rotation ∧
    (placePhoto randHalf 300 400 10 queuedB).rotation ≤ 20 :=
  placePhoto_bounds randHalf 300 400 10 queuedB (by norm_num) (by norm_num)
    (by norm_num [randHalf]) (by norm_num [randHalf]) (by norm_num [randHalf])
    (by norm_num [randHalf]) (by norm_num [randHalf]) (by norm_num [randHalf])

/-- C8: calling processPhotos with an empty pending collection, or while a
run is already in flight, is a silent no-op: the state, all collections and
the progress value are left exactly as they were. -/
theorem processPhotos_noop (fr : FrameOracle) (s : AppState)
    (h : s.uploads = [] ∨ s.isProcessing = true) :
    processPhotos fr s = s := by
  have hguard : s.uploads.length = 0 ∨ s.isProcessing = true := by
    rcases h with h1 | h2
    · left; rw [h1]; rfl
    · right; exact h2
  unfold processPhotos
  rw [if_pos hguard]

/-- Witness for processPhotos_noop: no-op on the empty pending collection and
no-op while a run is in flight (the in-flight progress value 50 survives). -/
theorem processPhotos_noop_witness :
    processPhotos oracleSkipBad stateEmpty = stateEmpty ∧
    processPhotos oracleSkipBad stateBusy = stateBusy ∧
    (processPhotos oracleSkipBad stateBusy).progress = 50 := by
  have h1 := processPhotos_noop oracleSkipBad stateEmpty (Or.inl rfl)
  have h2 := processPhotos_noop oracleSkipBad stateBusy (Or.inr rfl)
  exact ⟨h1, h2, by rw [h2]; rfl⟩

/-- Equality form of clampScale away from the falsy-default case. -/
theorem clampScale_eq (current delta : ℚ) (h : current ≠ 0) :
    clampScale current delta = max (1 / 2) (min (5 / 2) (current + delta)) := by
  rw [clampScale, if_neg h]

/-- clampScale always lands in [1/2, 5/2]. -/
theorem clampScale_mem (current delta : ℚ) :
    1 / 2 ≤ clampScale current delta ∧ clampScale current delta ≤ 5 / 2 :=
  ⟨le_max_left _ _, max_le (by norm_num) (min_le_left _ _)⟩

/-- C10: updatePhotoScale relates old and new dispensed lists pointwise: the
targeted photo's scale becomes clamp(currentScale + delta, 0.5, 2.5), every
other photo is untouched, the new scale always lies in [0.5, 2.5] however
large or negative delta is, and the change is monotone in the direction of
delta up to the clamp. -/
theorem updatePhotoScale_clamps (s : AppState) (id : String) (delta : ℚ)
    (h : ∀ p ∈ s.dispensedPhotos, 1 / 2 ≤ p.scale ∧ p.scale ≤ 5 / 2) :
    List.Forall₂ (fun p q : FramedPhotoData =>
      (p.id = id → q.scale = max (1 / 2) (min (5 / 2) (p.scale + delta))) ∧
      (p.id ≠ id → q = p) ∧
      1 / 2 ≤ q.scale ∧ q.scale ≤ 5 / 2 ∧
      (0 ≤ delta → p.scale ≤ q.scale) ∧
      (delta ≤ 0 → q.scale ≤ p.scale))
      s.dispensedPhotos (updatePhotoScale id delta s).dispensedPhotos := by
  have hmap : (updatePhotoScale id delta s).dispensedPhotos
      = s.dispensedPhotos.map (fun p =>
          if p.id = id then { p with scale := clampScale p.scale delta } else p) := rfl
  rw [hmap, List.forall₂_map_right_iff, List.forall₂_same]
  intro p hp
  obtain ⟨hlo, hhi⟩ := h p hp
  have hne : p.scale ≠ 0 := by intro h0; rw [h0] at hlo; norm_num at hlo
  by_cases hid : p.id = id
  · rw [if_pos hid]
    have hq : ({ p with scale := clampScale p.scale delta } : FramedPhotoData).scale
        = clampScale p.scale delta := rfl
    refine ⟨fun _ => ?_, fun hcontra => absurd hid hcontra, ?_, ?_, fun hd => ?_, fun hd => ?_⟩
    · rw [hq, clampScale_eq p.scale delta hne]
    · rw [hq]; exact (clampScale_mem p.scale delta).1
    · rw [hq]; exact (clampScale_mem p.scale delta).2
    · rw [hq, clampScale_eq p.scale delta hne, le_max_iff]
      right
      rw [le_min_iff]
      exact ⟨hhi, by linarith⟩
    · rw [hq, clampScale_eq p.scale delta hne]
      refine max_le hlo (le_trans (min_le_right _ _) ?_)
      linarith
  · rw [if_neg hid]
    exact ⟨fun hcontra => absurd hcontra hid, fun _ => rfl, hlo, hhi,
      fun _ => le_refl _, fun _ => le_refl _⟩

/-- Witness for updatePhotoScale_clamps: growing the scale of photo a by 3
from scale 1 clamps at 5/2. -/
theorem updatePhotoScale_clamps_witness :
    List.Forall₂ (fun p q : FramedPhotoData =>
      (p.id = "a" → q.scale = max (1 / 2) (min (5 / 2) (p.scale + 3))) ∧
      (p.id ≠ "a" → q = p) ∧
      1 / 2 ≤ q.scale ∧ q.scale ≤ 5 / 2 ∧
      ((0 : ℚ) ≤ 3 → p.scale ≤ q.scale) ∧
      ((3 : ℚ) ≤ 0 → q.scale ≤ p.scale))
      stateAB.dispensedPhotos (updatePhotoScale "a" 3 stateAB).dispensedPhotos :=
  updatePhotoScale_clamps stateAB "a" 3 (by
    intro p hp
    simp only [stateAB, photoA, List.mem_singleton] at hp
    rw [hp]
    norm_num)

/-- Guard of processPhotos is false for a non-empty pending collection with
no run in flight. -/
theorem processPhotos_guard_false (s : AppState) (h1 : s.uploads ≠ [])
    (h2 : s.isProcessing = false) :
    ¬ (s.uploads.length = 0 ∨ s.isProcessing = true) := by
  rintro (hl | hp)
  · exact h1 (List.length_eq_zero.mp hl)
  · rw [h2] at hp
    exact Bool.noConfusion hp

/-- The progress part of the loop result gains one entry per item, success or
not. -/
theorem processLoop_snd_cons (fr : FrameOracle) (total i : ℕ) (photo : UploadedPhoto)
    (rest : List UploadedPhoto) :
    (processLoop fr total i (photo :: rest)).2
      = progressAfter total i :: (processLoop fr total (i + 1) rest).2 := by
  cases hpu : processUpload fr photo <;> simp only [processLoop, hpu]

/-- The artifact part of the loop result is the filterMap of the batch:
successes in arrival order, failures absent. -/
theorem processLoop_fst (fr : FrameOracle) (total : ℕ) :
    ∀ (i : ℕ) (photos : List UploadedPhoto),
      (processLoop fr total i photos).1 = photos.filterMap (processUpload fr) := by
  intro i photos
  induction photos generalizing i with
  | nil => rfl
  | cons photo rest ih =>
    rw [List.filterMap_cons]
    cases hpu : processUpload fr photo <;> simp only [processLoop, hpu] <;> rw [ih (i + 1)]

/-- The progress trace of the loop started at index i lists the values
((i + j + 1) / total) * 100 for j ranging over the batch positions. -/
theorem processLoop_snd (fr : FrameOracle) (total : ℕ) :
    ∀ (i : ℕ) (photos : List UploadedPhoto),
      (processLoop fr total i photos).2
        = (List.range photos.length).map (fun j => progressAfter total (i + j)) := by
  intro i photos
  induction photos generalizing i with
  | nil => rfl
  | cons photo rest ih =>
    rw [processLoop_snd_cons, ih (i + 1), List.length_cons, List.range_succ_eq_map,
      List.map_cons, List.map_map]
    have hfun : (fun j => progressAfter total (i + 1 + j))
        = ((fun j => progressAfter total (i + j)) ∘ Nat.succ) := by
      funext j
      show progressAfter total (i + 1 + j) = progressAfter total (i + (j + 1))
      congr 1
      omega
    rw [hfun, Nat.add_zero]

/-- A successful framing keeps the id of its source upload. -/
theorem processUpload_id (fr : FrameOracle) (photo : UploadedPhoto) (fp : FramedPhotoData)
    (hpu : processUpload fr photo = some fp) : fp.id = photo.id := by
  unfold processUpload at hpu
  cases hfr : fr photo with
  | none =>
    rw [hfr] at hpu
    exact Option.noConfusion hpu
  | some str =>
    rw [hfr] at hpu
    simp only [Option.map_some'] at hpu
    injection hpu with hfp
    rw [← hfp]

/-- Ids of the framed artifacts of a batch form a sublist of the pending ids:
survivors keep their relative order. -/
theorem filterMap_processUpload_ids_sublist (fr : FrameOracle) (photos : List UploadedPhoto) :
    ((photos.filterMap (processUpload fr)).map FramedPhotoData.id).Sublist
      (photos.map UploadedPhoto.id) := by
  induction photos with
  | nil => exact List.Sublist.refl _
  | cons photo rest ih =>
    rw [List.filterMap_cons, List.map_cons]
    cases hpu : processUpload fr photo with
    | none => exact List.Sublist.cons _ ih
    | some fp =>
      rw [List.map_cons, processUpload_id fr photo fp hpu]
      exact List.Sublist.cons₂ _ ih

/-- Ids of the loop output form a sublist of the snapshot ids. -/
theorem processLoop_ids_sublist (fr : FrameOracle) (total i : ℕ)
    (photos : List UploadedPhoto) :
    (((processLoop fr total i photos).1).map FramedPhotoData.id).Sublist
      (photos.map UploadedPhoto.id) := by
  rw [processLoop_fst]
  exact filterMap_processUpload_ids_sublist fr photos

/-- C2 (amended): during a develop run over a non-empty pending collection,
the progress reported after the item at position k equals
((k + 1) / totalCount) * 100 — every processed item counts, whether or not
its framing succeeded — and after all items are processed the pending
collection is empty and progress equals 0. -/
theorem processPhotos_progress (fr : FrameOracle) (s : AppState)
    (h1 : s.uploads ≠ []) (h2 : s.isProcessing = false) :
    (processLoop fr s.uploads.length 0 s.uploads).2
      = (List.range s.uploads.length).map
          (fun k : ℕ => (((k : ℚ) + 1) / (s.uploads.length : ℚ)) * 100) ∧
    (processPhotos fr s).uploads = [] ∧
    (processPhotos fr s).progress = 0 := by
  refine ⟨?_, ?_, ?_⟩
  · rw [processLoop_snd fr s.uploads.length 0 s.uploads]
    have hfun : (fun j => progressAfter s.uploads.length (0 + j))
        = (fun k : ℕ => (((k : ℚ) + 1) / (s.uploads.length : ℚ)) * 100) := by
      funext j
      rw [progressAfter, Nat.zero_add]
    rw [hfun]
  · unfold processPhotos
    rw [if_neg (processPhotos_guard_false s h1 h2)]
  · unfold processPhotos
    rw [if_neg (processPhotos_guard_false s h1 h2)]

/-- Witness for processPhotos_progress on the sample two-item batch. -/
theorem processPhotos_progress_witness :
    (processPhotos oracleSkipBad statePending).uploads = [] ∧
    (processPhotos oracleSkipBad statePending).progress = 0 ∧
    (processLoop oracleSkipBad statePending.uploads.length 0 statePending.uploads).2
      = (List.range statePending.uploads.length).map
          (fun k : ℕ => (((k : ℚ) + 1) / (statePending.uploads.length : ℚ)) * 100) := by
  have H := processPhotos_progress oracleSkipBad statePending (by simp [statePending]) rfl
  exact ⟨H.2.1, H.2.2, H.1⟩

/-- C2 (counterexample): with two pending items whose first framing fails,
the progress reported after the first processed item is 50, while the
completed (successfully framed) count among the items processed so far is 0,
so the reported value is neither the fraction 0/2 nor that fraction as a
percentage. -/
theorem processPhotos_progress_counterexample :
    (processLoop oracleSkipBad statePending.uploads.length 0 statePending.uploads).2.head?
      = some 50 ∧
    completedCount oracleSkipBad (statePending.uploads.take 1) = 0 ∧
    (50 : ℚ) ≠ ((0 : ℚ) / 2) * 100 ∧ (50 : ℚ) ≠ (0 : ℚ) / 2 := by
  refine ⟨?_, ?_, by norm_num, by norm_num⟩
  · rw [show statePending.uploads = [uploadBad, uploadGood] from rfl,
      show ([uploadBad, uploadGood] : List UploadedPhoto).length = 2 from rfl,
      processLoop_snd_cons]
    simp only [List.head?_cons, Option.some.injEq]
    rw [progressAfter]
    norm_num
  · rfl

/-- C6: a develop run over a non-empty pending collection appends to the
queue exactly the artifacts of the successfully framed items, in arrival
order — each framing failure drops its item without aborting the batch — and
the ids of the appended artifacts form a sublist of the pending ids, so the
survivors appear in the queue in the same relative order they held while
pending. -/
theorem processPhotos_order (fr : FrameOracle) (s : AppState)
    (h1 : s.uploads ≠ []) (h2 : s.isProcessing = false) :
    (processPhotos fr s).processingQueue
      = s.processingQueue ++ s.uploads.filterMap (processUpload fr) ∧
    ((s.uploads.filterMap (processUpload fr)).map FramedPhotoData.id).Sublist
      (s.uploads.map UploadedPhoto.id) := by
  constructor
  · unfold processPhotos
    rw [if_neg (processPhotos_guard_false s h1 h2)]
    show s.processingQueue ++ (processLoop fr s.uploads.length 0 s.uploads).1 = _
    rw [processLoop_fst]
  · exact filterMap_processUpload_ids_sublist fr s.uploads

/-- Witness for processPhotos_order on the sample batch where the first item
fails: the lone survivor is the second upload. -/
theorem processPhotos_order_witness :
    (processPhotos oracleSkipBad statePending).processingQueue
      = statePending.processingQueue
        ++ statePending.uploads.filterMap (processUpload oracleSkipBad) ∧
    ((statePending.uploads.filterMap (processUpload oracleSkipBad)).map
      FramedPhotoData.id).Sublist (statePending.uploads.map UploadedPhoto.id) :=
  processPhotos_order oracleSkipBad statePending (by simp [statePending]) rfl

/-- C3: a develop run processes only the snapshot of the pending collection
taken when the call started. Sources added while the run is in flight are
never framed — no artifact with an id outside the snapshot is produced — the
queue gains exactly the snapshot's artifacts, and on completion the entire
pending collection, additions included, is unconditionally emptied, silently
discarding the added sources. -/
theorem developWithMidRunAdds_snapshot (fr : FrameOracle) (added : List UploadedPhoto)
    (s : AppState) (h1 : s.uploads ≠ []) (h2 : s.isProcessing = false) :
    (developWithMidRunAdds fr added s).uploads = [] ∧
    (developWithMidRunAdds fr added s).processingQueue
      = s.processingQueue ++ (processLoop fr s.uploads.length 0 s.uploads).1 ∧
    ∀ a ∈ added, a.id ∉ s.uploads.map UploadedPhoto.id →
      a.id ∉ ((processLoop fr s.uploads.length 0 s.uploads).1).map FramedPhotoData.id := by
  have hguard := processPhotos_guard_false s h1 h2
  unfold developWithMidRunAdds
  rw [if_neg hguard]
  refine ⟨rfl, rfl, ?_⟩
  intro a ha hnot hmem
  exact hnot ((processLoop_ids_sublist fr s.uploads.length 0 s.uploads).subset hmem)

/-- Witness for developWithMidRunAdds_snapshot: an upload arriving mid-run is
discarded and never framed. -/
theorem developWithMidRunAdds_snapshot_witness :
    (developWithMidRunAdds oracleSkipBad [uploadLate] statePending).uploads = [] ∧
    (developWithMidRunAdds oracleSkipBad [uploadLate] statePending).processingQueue
      = statePending.processingQueue
        ++ (processLoop oracleSkipBad statePending.uploads.length 0
            statePending.uploads).1 ∧
    uploadLate.id ∉ ((processLoop oracleSkipBad statePending.uploads.length 0
        statePending.uploads).1).map FramedPhotoData.id := by
  have H := developWithMidRunAdds_snapshot oracleSkipBad [uploadLate] statePending
    (by simp [statePending]) rfl
  refine ⟨H.1, H.2.1, H.2.2 uploadLate (List.mem_singleton.mpr rfl) ?_⟩
  simp [statePending, uploadBad, uploadGood, uploadLate]

/-- Witness for createPolaroidFrame_centre_crop on a landscape 800x400 source. -/
theorem createPolaroidFrame_centre_crop_witness :
    (0 : ℚ) < 800 ∧ (0 : ℚ) < 400 ∧
    (createPolaroidFrame 800 400 600).sWidth = 400 ∧
    (createPolaroidFrame 800 400 600).sx = 200 := by
  have h := createPolaroidFrame_centre_crop 800 400 600 (by norm_num) (by norm_num)
  have h2 := h.1 (by norm_num)
  refine ⟨by norm_num, by norm_num, h2.1, ?_⟩
  rw [h2.2.2.1]; norm_num

end PuppyCamera
